import Mathlib

/-!
Verification of the envibe-mcp core against its specification.

The development shallowly embeds the TypeScript sources:
* `src/core/types.ts` (access-level data model),
* `src/core/manifest.ts` (manifest codec and policy store),
* `src/core/patterns.ts` (rule-based classifier),
* `src/utils/dotenv.ts` (key-value text codec),
and models the projection engine and modification gate from the
specification (their source module is not part of the repository snapshot).

JavaScript strings are embedded as `List Char`, JavaScript objects
(`Record<string, T>`) as insertion-ordered association lists, and JavaScript
numbers as rationals (`Rat`), which is exact for every value the claims
exercise.
-/

namespace EnvibeMCP

/-- Association-list lookup: first entry whose key matches, embedding
JavaScript property read `obj[key]`. -/
def lookupAssoc {κ α : Type} [DecidableEq κ] : List (κ × α) → κ → Option α
  | [], _ => none
  | p :: rest, k => if p.1 = k then some p.2 else lookupAssoc rest k

/-- Association-list update, embedding JavaScript property write
`obj[key] = value`: replaces the entry in place when the key is present,
appends at the end otherwise. -/
def updateAssoc {κ α : Type} [DecidableEq κ] : List (κ × α) → κ → α → List (κ × α)
  | [], k, v => [(k, v)]
  | p :: rest, k, v => if p.1 = k then (k, v) :: rest else p :: updateAssoc rest k v

theorem lookupAssoc_updateAssoc_self {κ α : Type} [DecidableEq κ]
    (l : List (κ × α)) (k : κ) (v : α) :
    lookupAssoc (updateAssoc l k v) k = some v := by
  induction l with
  | nil => simp [updateAssoc, lookupAssoc]
  | cons p rest ih =>
    by_cases h : p.1 = k
    · simp [updateAssoc, h, lookupAssoc]
    · simp [updateAssoc, h, lookupAssoc, ih]

theorem lookupAssoc_updateAssoc_ne {κ α : Type} [DecidableEq κ]
    (l : List (κ × α)) (k k' : κ) (v : α) (hne : k' ≠ k) :
    lookupAssoc (updateAssoc l k v) k' = lookupAssoc l k' := by
  have hkk : ¬(k = k') := fun h => hne h.symm
  induction l with
  | nil => simp [updateAssoc, lookupAssoc, hkk]
  | cons p rest ih =>
    by_cases h : p.1 = k
    · subst h
      simp [updateAssoc, lookupAssoc, hkk]
    · by_cases h' : p.1 = k'
      · simp [updateAssoc, h, lookupAssoc, h', hne]
      · simp [updateAssoc, h, lookupAssoc, h', ih]

theorem updateAssoc_eq_append {κ α : Type} [DecidableEq κ]
    (l : List (κ × α)) (k : κ) (v : α) (habs : ∀ p ∈ l, p.1 ≠ k) :
    updateAssoc l k v = l ++ [(k, v)] := by
  induction l with
  | nil => simp [updateAssoc]
  | cons p rest ih =>
    have hp : p.1 ≠ k := habs p (by simp)
    simp only [updateAssoc, if_neg hp, List.cons_append, List.cons.injEq, true_and]
    exact ih fun q hq => habs q (by simp [hq])

/-! ## Access-level data model (`src/core/types.ts`) -/

/-- The five access levels, embedding the `AccessLevel` string enum:
`full`, `read-only`, `placeholder`, `schema-only`, `hidden`. -/
inductive AccessLevel where
  | full
  | readOnly
  | placeholder
  | schemaOnly
  | hidden
deriving DecidableEq, Repr

/-- The string tag of an access level, as declared in the enum. -/
def accessTag : AccessLevel → String
  | .full => "full"
  | .readOnly => "read-only"
  | .placeholder => "placeholder"
  | .schemaOnly => "schema-only"
  | .hidden => "hidden"

/-- Per-key policy record, embedding `VariableConfig`. Optional metadata
fields are kept when they carry the declared (string/boolean/mapping)
type; the TypeScript casts do not validate them at runtime, and no claim
depends on non-conforming metadata. -/
structure VariableConfig where
  access : AccessLevel
  description : Option String := none
  defaultValue : Option String := none
  required : Option Bool := none
  pattern : Option String := none
  schema : Option (List (String × String)) := none
deriving DecidableEq, Repr

/-- Manifest: version plus per-key configuration, embedding `Manifest`.
The JavaScript `number` version is modelled as a rational; the source field
name `variables` is a reserved word in Lean, so it is called `vars` here. -/
structure Manifest where
  version : Rat
  vars : List (String × VariableConfig)
deriving DecidableEq, Repr

/-! ## Policy store operations (`src/core/manifest.ts`) -/

/-- `DEFAULT_CONFIG`: the fixed fallback for variables not in the manifest. -/
def DEFAULT_CONFIG : VariableConfig :=
  { access := .placeholder, description := some "Unclassified variable" }

/-- `createEmptyManifest()`. -/
def createEmptyManifest : Manifest := { version := 1, vars := [] }

/-- `getVariableConfig(manifest, key)`: stored config if present, else
`DEFAULT_CONFIG` (the `??` fallback). -/
def getVariableConfig (manifest : Manifest) (key : String) : VariableConfig :=
  (lookupAssoc manifest.vars key).getD DEFAULT_CONFIG

/-- `setVariableConfig(manifest, key, config)`: spread-copy of the manifest
with the one key added or replaced. -/
def setVariableConfig (manifest : Manifest) (key : String) (config : VariableConfig) :
    Manifest :=
  { manifest with vars := updateAssoc manifest.vars key config }

/-- `hasVariable(manifest, key)`. -/
def hasVariable (manifest : Manifest) (key : String) : Bool :=
  (lookupAssoc manifest.vars key).isSome

/-- `MANIFEST_FILENAME`. -/
def MANIFEST_FILENAME : String := ".env.manifest.yaml"

/-! ## Classifier (`src/core/patterns.ts`)

Each classification rule carries a case-insensitive regular expression over
the variable name.  The rules use only literal runs, the optional separator
class `[_-]?`, anchors, and top-level alternation, so every rule is embedded
as a decidable test on the upper-cased character list of the name:
`X[_-]?Y` matches a name exactly when one of `XY`, `X_Y`, `X-Y` occurs as a
substring. -/

/-- Upper-cased character list of a name, embedding the `i` regex flag
(the source only matches ASCII letters). -/
def upChars (s : String) : List Char := s.toList.map Char.toUpper

/-- `s` starts with `pat`. -/
def startsWithSeq : List Char → List Char → Bool
  | _, [] => true
  | [], _ :: _ => false
  | c :: s, p :: ps => c = p && startsWithSeq s ps

/-- `s` ends with `pat`. -/
def endsWithSeq (s pat : List Char) : Bool :=
  startsWithSeq s.reverse pat.reverse

/-- `pat` occurs somewhere inside `s` (unanchored regex match of a literal). -/
def hasSub : List Char → List Char → Bool
  | [], pat => pat.isEmpty
  | c :: rest, pat => startsWithSeq (c :: rest) pat || hasSub rest pat

/-- Unanchored match of `A[_-]?B` against an upper-cased name. -/
def optSepSub (a b : String) (u : List Char) : Bool :=
  hasSub u (a ++ b).toList || hasSub u (a ++ "_" ++ b).toList ||
    hasSub u (a ++ "-" ++ b).toList

/-- One classification rule (`ClassificationPattern`); the `pattern` field is
the embedded regex test. -/
structure ClassificationPattern where
  name : String
  pattern : List Char → Bool
  suggestedAccess : AccessLevel
  description : String

/-- `CLASSIFICATION_PATTERNS`: the ordered rule list; order matters, first
match wins. -/
def CLASSIFICATION_PATTERNS : List ClassificationPattern := [
  ⟨"stripe-secret", fun u => startsWithSeq u "STRIPE_SECRET".toList,
    .hidden, "Stripe secret key"⟩,
  ⟨"private-key", optSepSub "PRIVATE" "KEY", .hidden, "Private key material"⟩,
  ⟨"signing-secret", optSepSub "SIGNING" "SECRET", .hidden, "Signing secret"⟩,
  ⟨"api-key", optSepSub "API" "KEY", .placeholder, "API key"⟩,
  ⟨"secret-key", optSepSub "SECRET" "KEY", .placeholder, "Secret key"⟩,
  ⟨"access-key", optSepSub "ACCESS" "KEY", .placeholder, "Access key"⟩,
  ⟨"auth-token", optSepSub "AUTH" "TOKEN", .placeholder, "Authentication token"⟩,
  ⟨"bearer-token", optSepSub "BEARER" "TOKEN", .placeholder, "Bearer token"⟩,
  ⟨"jwt-secret", optSepSub "JWT" "SECRET", .placeholder, "JWT signing secret"⟩,
  ⟨"password", fun u => hasSub u "PASSWORD".toList, .placeholder, "Password credential"⟩,
  ⟨"credential", fun u => hasSub u "CREDENTIAL".toList, .placeholder, "Credential"⟩,
  ⟨"secret", fun u => hasSub u "SECRET".toList, .placeholder, "Secret value"⟩,
  ⟨"token", fun u => endsWithSeq u "TOKEN".toList, .placeholder, "Token"⟩,
  ⟨"database-url", optSepSub "DATABASE" "URL", .readOnly, "Database connection URL"⟩,
  ⟨"redis-url", optSepSub "REDIS" "URL", .readOnly, "Redis connection URL"⟩,
  ⟨"mongodb-uri", fun u => optSepSub "MONGO" "URI" u || optSepSub "MONGODB" "URI" u,
    .readOnly, "MongoDB connection URI"⟩,
  ⟨"connection-string", optSepSub "CONNECTION" "STRING", .readOnly, "Connection string"⟩,
  ⟨"url-suffix", fun u => endsWithSeq u "_URL".toList, .readOnly, "URL endpoint"⟩,
  ⟨"uri-suffix", fun u => endsWithSeq u "_URI".toList, .readOnly, "URI endpoint"⟩,
  ⟨"host", fun u => endsWithSeq u "_HOST".toList, .readOnly, "Host address"⟩,
  ⟨"node-env", fun u => u = "NODE_ENV".toList, .full, "Node.js environment mode"⟩,
  ⟨"env-suffix", fun u => endsWithSeq u "_ENV".toList, .full, "Environment setting"⟩,
  ⟨"debug", fun u => hasSub u "DEBUG".toList, .full, "Debug flag"⟩,
  ⟨"log-level", optSepSub "LOG" "LEVEL", .full, "Logging level"⟩,
  ⟨"port", fun u => u = "PORT".toList, .full, "Server port"⟩,
  ⟨"port-suffix", fun u => endsWithSeq u "_PORT".toList, .full, "Port number"⟩,
  ⟨"timeout", fun u => hasSub u "TIMEOUT".toList, .full, "Timeout setting"⟩,
  ⟨"max-size", fun u => optSepSub "MAX" "SIZE" u || optSepSub "MAX" "LENGTH" u ||
    optSepSub "MAX" "COUNT" u, .full, "Size/count limit"⟩,
  ⟨"enable-disable", fun u => hasSub u "ENABLE_".toList || hasSub u "ENABLE-".toList ||
    hasSub u "DISABLE_".toList || hasSub u "DISABLE-".toList, .full, "Feature flag"⟩,
  ⟨"feature-flag", fun u => hasSub u "FEATURE_".toList || hasSub u "FEATURE-".toList,
    .full, "Feature flag"⟩,
  ⟨"region", fun u => endsWithSeq u "_REGION".toList, .full, "Cloud region"⟩,
  ⟨"version", fun u => endsWithSeq u "_VERSION".toList, .full, "Version number"⟩]

/-- `classifyVariable(name)`: first matching rule's suggested config, or
none when no rule matches. -/
def classifyVariable (name : String) : Option VariableConfig :=
  match CLASSIFICATION_PATTERNS.find? (fun p => p.pattern (upChars name)) with
  | some p => some { access := p.suggestedAccess, description := some p.description }
  | none => none

/-- `getDefaultConfig()`: fixed default for unclassified variables. -/
def getDefaultConfig : VariableConfig :=
  { access := .placeholder,
    description := some "Unclassified variable - defaulting to placeholder for safety" }

/-- `classifyVariables(names)`: classify each name, substituting the default
config when no rule matches (`??`), building a record by insertion. -/
def classifyVariables (names : List String) : List (String × VariableConfig) :=
  names.foldl (fun result n => updateAssoc result n ((classifyVariable n).getD getDefaultConfig)) []

/-- The access suggested for a name, if any rule matches. -/
def accessOf (o : Option VariableConfig) : Option AccessLevel :=
  o.map (fun c => c.access)

example : accessOf (classifyVariable "STRIPE_SECRET") = some .hidden := by decide
example : accessOf (classifyVariable "RSA_PRIVATE_KEY") = some .hidden := by decide
example : accessOf (classifyVariable "OPENAI_API_KEY") = some .placeholder := by decide
example : accessOf (classifyVariable "DATABASE_URL") = some .readOnly := by decide
example : accessOf (classifyVariable "DB_HOST") = some .readOnly := by decide
example : accessOf (classifyVariable "NODE_ENV") = some .full := by decide
example : accessOf (classifyVariable "LOG_LEVEL") = some .full := by decide
example : accessOf (classifyVariable "api_key") = some .placeholder := by decide
example : classifyVariable "CUSTOM_VAR" = none := by decide

/-! ## Manifest codec (`src/core/manifest.ts`, `parseManifest`)

`parseManifest` first runs the external YAML library on the text and then
validates the resulting document.  The library call is abstracted: the
embedding validates an already-parsed YAML document value.  JavaScript
numbers are rationals here; scalar truthiness and `typeof` checks follow
JavaScript semantics. -/

/-- A parsed YAML document value. -/
inductive Yaml where
  | ynull
  | ybool (b : Bool)
  | ynum (q : Rat)
  | ystr (s : String)
  | yarr (items : List Yaml)
  | ymap (entries : List (String × Yaml))

/-- JavaScript truthiness of a document value (`!parsed`). -/
def yamlTruthy : Yaml → Bool
  | .ynull => false
  | .ybool b => b
  | .ynum q => !(q = 0)
  | .ystr s => !(s = "")
  | .yarr _ => true
  | .ymap _ => true

/-- `typeof x === "object"` for a (non-null) document value: arrays and
mappings both count as objects in JavaScript. -/
def yamlIsObject : Yaml → Bool
  | .yarr _ => true
  | .ymap _ => true
  | _ => false

/-- Named property read (`parsed.version`, `config.access`, ...): only a
mapping has named properties; on any other value it is `undefined`. -/
def yamlProp (doc : Yaml) (key : String) : Option Yaml :=
  match doc with
  | .ymap entries => lookupAssoc entries key
  | _ => none

/-- String cast of an optional metadata property (`as string | undefined`);
the cast does not validate at runtime, and non-string metadata is outside
the modelled scope. -/
def yamlPropStr (doc : Yaml) (key : String) : Option String :=
  match yamlProp doc key with
  | some (.ystr s) => some s
  | _ => none

/-- Boolean cast of an optional metadata property. -/
def yamlPropBool (doc : Yaml) (key : String) : Option Bool :=
  match yamlProp doc key with
  | some (.ybool b) => some b
  | _ => none

/-- `Record<string, string>` cast of the optional `schema` property. -/
def yamlPropSchema (doc : Yaml) (key : String) : Option (List (String × String)) :=
  match yamlProp doc key with
  | some (.ymap entries) =>
      some (entries.filterMap (fun p =>
        match p.2 with
        | .ystr s => some (p.1, s)
        | _ => none))
  | _ => none

/-- `Object.values(AccessLevel)` in enum declaration order. -/
def ACCESS_LEVELS : List String :=
  ["full", "read-only", "placeholder", "schema-only", "hidden"]

/-- `isValidAccessLevel`, returning the matched level. -/
def levelOfTag (s : String) : Option AccessLevel :=
  if s = "full" then some .full
  else if s = "read-only" then some .readOnly
  else if s = "placeholder" then some .placeholder
  else if s = "schema-only" then some .schemaOnly
  else if s = "hidden" then some .hidden
  else none

/-- Rendering of a JavaScript value inside a template literal, for the
access-level error message; containers are approximated (no claim reaches
them). -/
def jsDisplayOpt : Option Yaml → String
  | none => "undefined"
  | some .ynull => "null"
  | some (.ybool true) => "true"
  | some (.ybool false) => "false"
  | some (.ynum q) => toString q
  | some (.ystr s) => s
  | some (.yarr _) => ""
  | some (.ymap _) => "[object Object]"

/-- The `variable must be an object` error message. -/
def mustBeObjectMsg (key : String) : String :=
  "Invalid manifest: variable \"" ++ key ++ "\" must be an object"

/-- The `invalid access level` error message: names the offending key and
enumerates the valid levels. -/
def invalidAccessMsg (key display : String) : String :=
  "Invalid manifest: variable \"" ++ key ++ "\" has invalid access level \"" ++
    display ++ "\". " ++ "Valid levels: " ++ String.intercalate ", " ACCESS_LEVELS

/-- The invalid-version error message. -/
def versionErrorMsg : String := "Invalid manifest: version must be a positive number"

/-- Validation of the `version` field: `parsed.version ?? 1`, then
`typeof version !== "number" || version < 1` fails. -/
def parseVersion (doc : Yaml) : Except String Rat :=
  match yamlProp doc "version" with
  | none => .ok 1
  | some .ynull => .ok 1
  | some (.ynum q) => if q < 1 then .error versionErrorMsg else .ok q
  | some _ => .error versionErrorMsg

/-- Validation of one `variables` entry: must be a truthy object with a
valid `access` tag; recognized optional fields are carried over. -/
def parseVariableEntry (key : String) (value : Yaml) : Except String (String × VariableConfig) :=
  if !(yamlTruthy value && yamlIsObject value) then
    .error (mustBeObjectMsg key)
  else
    match yamlProp value "access" with
    | some (.ystr s) =>
      match levelOfTag s with
      | some lvl =>
          .ok (key, { access := lvl,
                      description := yamlPropStr value "description",
                      defaultValue := yamlPropStr value "default",
                      required := yamlPropBool value "required",
                      pattern := yamlPropStr value "pattern",
                      schema := yamlPropSchema value "schema" })
      | none => .error (invalidAccessMsg key s)
    | other => .error (invalidAccessMsg key (jsDisplayOpt other))

/-- The sequential `for ... of Object.entries(parsed.variables)` loop:
the first invalid entry aborts with its error. -/
def parseEntries : List (String × Yaml) → Except String (List (String × VariableConfig))
  | [] => .ok []
  | (k, v) :: rest =>
    match parseVariableEntry k v with
    | .error e => .error e
    | .ok p => (parseEntries rest).map (p :: ·)

/-- `Object.entries` of the `variables` property.  A non-object or falsy
value is skipped silently (`if (parsed.variables && typeof ... === "object")`);
an array enumerates index keys. -/
def variablesEntries (doc : Yaml) : List (String × Yaml) :=
  match yamlProp doc "variables" with
  | some (.ymap entries) => entries
  | some (.yarr items) => (items.enum.map (fun p => (toString p.1, p.2)))
  | _ => []

/-- `parseManifest`, acting on the already-parsed YAML document. -/
def parseManifestDoc (doc : Yaml) : Except String Manifest :=
  if !(yamlTruthy doc && yamlIsObject doc) then
    .error "Invalid manifest: expected object"
  else
    match parseVersion doc with
    | .error e => .error e
    | .ok ver => (parseEntries (variablesEntries doc)).map (fun vs => ⟨ver, vs⟩)

/-- `loadManifest(directory)`: the whole read-and-parse is wrapped in one
`try`/`catch` whose handler throws `Manifest not found`.  The file system
read and the YAML library run are modelled by `readResult`: `none` when
reading (or YAML parsing) fails, `some doc` when it yields the document. -/
def loadManifestFrom (directory : String) (readResult : Option Yaml) : Except String Manifest :=
  let filePath := directory ++ "/" ++ MANIFEST_FILENAME
  match readResult with
  | none => .error ("Manifest not found: " ++ filePath)
  | some doc =>
    match parseManifestDoc doc with
    | .ok m => .ok m
    | .error _ => .error ("Manifest not found: " ++ filePath)

example : parseManifestDoc (.ymap [("version", .ynum 1),
    ("variables", .ymap [("API_KEY", .ymap [("access", .ystr "placeholder"),
      ("description", .ystr "API key")]), ("DEBUG", .ymap [("access", .ystr "full")])])]) =
    .ok { version := 1,
          vars := [("API_KEY", { access := .placeholder, description := some "API key" }),
                   ("DEBUG", { access := .full })] } := rfl
example : parseManifestDoc (.ymap [("variables", .ymap [("TEST", .ymap
    [("access", .ystr "full")])])]) =
    .ok { version := 1, vars := [("TEST", { access := .full })] } := rfl
example : parseManifestDoc (.ymap [("version", .ynum 1), ("variables", .ymap [])]) =
    .ok { version := 1, vars := [] } := rfl
example : parseManifestDoc (.ystr "just a string") =
    .error "Invalid manifest: expected object" := rfl
example : parseManifestDoc (.ymap [("version", .ynum (-1)), ("variables", .ymap [])]) =
    .error "Invalid manifest: version must be a positive number" := by
  have h : ((-1 : Rat) < 1) = True := by simp
  simp [parseManifestDoc, parseVersion, yamlProp, lookupAssoc, yamlTruthy, yamlIsObject, h,
    versionErrorMsg]
example : parseManifestDoc (.ymap [("version", .ynum 1),
    ("variables", .ymap [("BAD", .ystr "string")])]) =
    .error "Invalid manifest: variable \"BAD\" must be an object" := rfl

/-! ## Key-value text codec (`src/utils/dotenv.ts`)

Text is embedded as `List Char`.  Whitespace (for `trim` and `\s`) is the
ASCII whitespace set. -/

/-- ASCII whitespace, for `String.prototype.trim` and the regex class `\s`. -/
def isWs (c : Char) : Bool :=
  c = ' ' || c = '\t' || c = '\n' || c = '\r' || c = '\x0b' || c = '\x0c'

/-- `trim()`: strip whitespace from both ends. -/
def trimChars (l : List Char) : List Char :=
  ((l.dropWhile isWs).reverse.dropWhile isWs).reverse

/-- `content.split("\n")`. -/
def splitNL : List Char → List (List Char)
  | [] => [[]]
  | c :: rest =>
    if c = '\n' then [] :: splitNL rest
    else
      match splitNL rest with
      | [] => [[c]]
      | l :: ls => (c :: l) :: ls

/-- `lines.join("\n")`. -/
def joinNL : List (List Char) → List Char
  | [] => []
  | [l] => l
  | l :: l' :: rest => l ++ '\n' :: joinNL (l' :: rest)

/-- Split at the first occurrence of `sep` (`indexOf` + the two `slice`s);
`none` when `sep` does not occur. -/
def splitAtFirst (sep : Char) : List Char → Option (List Char × List Char)
  | [] => none
  | c :: rest =>
    if c = sep then some ([], rest)
    else (splitAtFirst sep rest).map (fun p => (c :: p.1, p.2))

/-- One global single-character replacement pass
(`value.replace(/c/g, "...")` with a one-character pattern). -/
def escOne (a : Char) (bs : List Char) : List Char → List Char
  | [] => []
  | c :: rest => (if c = a then bs else [c]) ++ escOne a bs rest

/-- The `serializeEnv` escape chain, in source order: backslash first, then
quote, newline, carriage return, tab. -/
def escapeValue (v : List Char) : List Char :=
  escOne '\t' ['\\', 't']
    (escOne '\r' ['\\', 'r']
      (escOne '\n' ['\\', 'n']
        (escOne '"' ['\\', '"']
          (escOne '\\' ['\\', '\\'] v))))

/-- One global two-character replacement pass
(`value.replace(/\\x/g, "y")`): left-to-right, non-overlapping. -/
def unPair (a b r : Char) : List Char → List Char
  | x :: y :: rest =>
    if x = a ∧ y = b then r :: unPair a b r rest
    else x :: unPair a b r (y :: rest)
  | l => l

/-- The `parseEnvContent` escape-expansion chain, in source order:
`\n`, `\r`, `\t`, `\\`, `\"`. -/
def unescapeValue (v : List Char) : List Char :=
  unPair '\\' '"' '"'
    (unPair '\\' '\\' '\\'
      (unPair '\\' 't' '\t'
        (unPair '\\' 'r' '\r'
          (unPair '\\' 'n' '\n' v))))

/-- `serializeEnv`'s quoting test: value contains a space, `#`, newline, or
either quote character. -/
def needsQuotes (v : List Char) : Bool :=
  v.contains ' ' || v.contains '#' || v.contains '\n' ||
    v.contains '"' || v.contains '\''

/-- One serialized line of `serializeEnv`. -/
def serLine (k v : List Char) : List Char :=
  if needsQuotes v then k ++ '=' :: '"' :: (escapeValue v ++ ['"'])
  else k ++ '=' :: v

/-- `serializeEnv(env)`: one line per entry, joined with `\n`, with a
trailing `\n`. -/
def serializeEnv (env : List (List Char × List Char)) : List Char :=
  joinNL (env.map (fun p => serLine p.1 p.2)) ++ ['\n']

/-- Parse one line of `.env` text: comment/blank/`=`-less lines and empty
keys produce nothing; otherwise the trimmed key and the processed value. -/
def parseLine (line : List Char) : Option (List Char × List Char) :=
  let trimmed := trimChars line
  if trimmed.isEmpty then none
  else if trimmed.head? = some '#' then none
  else
    match splitAtFirst '=' trimmed with
    | none => none
    | some (rawKey, rawVal) =>
      let key := trimChars rawKey
      let value0 := trimChars rawVal
      let value1 :=
        if value0.head? = some '"' ∨ value0.head? = some '\'' then value0
        else
          match splitAtFirst '#' value0 with
          | some p => trimChars p.1
          | none => value0
      let value2 :=
        if (value1.head? = some '"' ∧ value1.getLast? = some '"') ∨
            (value1.head? = some '\'' ∧ value1.getLast? = some '\'') then
          (value1.drop 1).dropLast
        else value1
      let value3 := if value2.contains '\\' then unescapeValue value2 else value2
      if key.isEmpty then none else some (key, value3)

/-- `parseEnvContent(content)`: fold the parsed lines into a record,
later duplicates overwriting earlier ones. -/
def parseEnvContent (content : List Char) : List (List Char × List Char) :=
  (splitNL content).foldl
    (fun result line =>
      match parseLine line with
      | some (k, v) => updateAssoc result k v
      | none => result)
    []

/-- `updateEnvVariable`'s quoting test: space, `#`, or newline only (quotes
and backslashes do not trigger quoting here). -/
def updNeedsQuotes (v : List Char) : Bool :=
  v.contains ' ' || v.contains '#' || v.contains '\n'

/-- The line `updateEnvVariable` writes: the value is inserted verbatim,
with no escaping. -/
def updFormatLine (key value : List Char) : List Char :=
  if updNeedsQuotes value then key ++ '=' :: '"' :: (value ++ ['"'])
  else key ++ '=' :: value

/-- The test `new RegExp("^" + escapeRegex(key) + "\\s*=").test(line.trim())`. -/
def matchesKeyLine (key line : List Char) : Bool :=
  let t := trimChars line
  startsWithSeq t key && ((t.drop key.length).dropWhile isWs).head? = some '='

/-- Replace the first line matching the key pattern, if any. -/
def replaceKeyLine (key value : List Char) : List (List Char) → Option (List (List Char))
  | [] => none
  | l :: rest =>
    if matchesKeyLine key l then some (updFormatLine key value :: rest)
    else (replaceKeyLine key value rest).map (l :: ·)

/-- The line-list transformation of `updateEnvVariable`: replace the first
matching line, else append (before a trailing empty line when present). -/
def updateEnvLines (key value : List Char) (lines : List (List Char)) : List (List Char) :=
  match replaceKeyLine key value lines with
  | some newLines => newLines
  | none =>
    match lines.getLast? with
    | some last =>
      if last ≠ [] then lines ++ [updFormatLine key value]
      else lines.dropLast ++ [updFormatLine key value, []]
    | none => [updFormatLine key value, []]

/-- `updateEnvVariable` on file content (the file system read/write around
it is external). -/
def updateEnvContent (key value content : List Char) : List Char :=
  joinNL (updateEnvLines key value (splitNL content))

example : parseEnvContent "KEY=value\nANOTHER=test".toList =
    [("KEY".toList, "value".toList), ("ANOTHER".toList, "test".toList)] := by decide
example : parseEnvContent "# c\nKEY=value\n# d".toList =
    [("KEY".toList, "value".toList)] := by decide
example : parseEnvContent "KEY=value # inline comment".toList =
    [("KEY".toList, "value".toList)] := by decide
example : parseEnvContent "KEY=\"value # not a comment\"".toList =
    [("KEY".toList, "value # not a comment".toList)] := by decide
example : parseEnvContent "MULTI=\"line1\\nline2\"".toList =
    [("MULTI".toList, "line1\nline2".toList)] := by decide
example : parseEnvContent "KEY = value".toList = [("KEY".toList, "value".toList)] := by decide
example : parseEnvContent "INVALID_LINE\nKEY=value".toList =
    [("KEY".toList, "value".toList)] := by decide
example : parseEnvContent "EMPTY=".toList = [("EMPTY".toList, [])] := by decide
example : parseEnvContent "URL=https://example.com?foo=bar".toList =
    [("URL".toList, "https://example.com?foo=bar".toList)] := by decide
example : serializeEnv [("KEY".toList, "value".toList)] = "KEY=value\n".toList := by decide
example : serializeEnv [] = "\n".toList := by decide
example : serializeEnv [("MESSAGE".toList, "hello world".toList)] =
    "MESSAGE=\"hello world\"\n".toList := by decide
example : parseEnvContent (serializeEnv [("QUOTED".toList, "say \"hi\"".toList)]) =
    [("QUOTED".toList, "say \"hi\"".toList)] := by decide

/-! ## Projection engine and modification gate (spec §4.4, §4.5)

The module implementing `filterForAI`, `getVariableForAI` and
`validateModification` (`src/core/index.ts`) is not part of the repository
snapshot; only its callers and re-exports are.  The definitions below are
modelled from the specification. -/

/-- The ephemeral projection record `AIEnvVariable`. -/
structure AIEnvVariable where
  key : String
  displayValue : String
  access : AccessLevel
  description : Option String
  canModify : Bool
deriving DecidableEq, Repr

/-- Modelled from the spec: the `schema-only` display value, a structural
description derived from `schema`/`format`, never the raw value
(`src/core/index.ts` is missing). -/
def schemaDisplay (config : VariableConfig) : String :=
  match config.schema with
  | some fields => "[structure: " ++ String.intercalate ", " (fields.map Prod.fst) ++ "]"
  | none => (config.pattern).getD "[structured value]"

/-- Modelled from the spec: `displayValue` as a function of the resolved
access level (§4.4 table); `full`/`read-only` show the raw value or the
empty string when unset, `placeholder` an angle-bracketed key name,
`schema-only` a structural description (`src/core/index.ts` is missing). -/
def displayValueFor (key : String) (config : VariableConfig) (rawVal : Option String) : String :=
  match config.access with
  | .full => rawVal.getD ""
  | .readOnly => rawVal.getD ""
  | .placeholder => "<" ++ key ++ ">"
  | .schemaOnly => schemaDisplay config
  | .hidden => ""

/-- The projection record for one key under its resolved config. -/
def mkAIEnvVariable (key : String) (config : VariableConfig) (rawVal : Option String) :
    AIEnvVariable :=
  { key := key
    displayValue := displayValueFor key config rawVal
    access := config.access
    description := config.description
    canModify := config.access = AccessLevel.full }

/-- Modelled from the spec: `filterForAI(env, manifest)` iterates the union
of manifest keys and raw-env-only keys in insertion order, resolves each
config via `getVariableConfig`, and omits `hidden` entries
(`src/core/index.ts` is missing). -/
def filterForAI (env : List (String × String)) (manifest : Manifest) : List AIEnvVariable :=
  let manifestKeys := manifest.vars.map Prod.fst
  let rawOnlyKeys := (env.map Prod.fst).filter (fun k => !(manifestKeys.contains k))
  (manifestKeys ++ rawOnlyKeys).filterMap (fun k =>
    let config := getVariableConfig manifest k
    if config.access = AccessLevel.hidden then none
    else some (mkAIEnvVariable k config (lookupAssoc env k)))

/-- Modelled from the spec: `getVariableForAI(key, env, manifest)`, the
single-key specialization; none (not an error) for a `hidden` key or a key
absent from both the manifest and the raw environment
(`src/core/index.ts` is missing). -/
def getVariableForAI (key : String) (env : List (String × String)) (manifest : Manifest) :
    Option AIEnvVariable :=
  if (lookupAssoc manifest.vars key).isNone && (lookupAssoc env key).isNone then none
  else
    let config := getVariableConfig manifest key
    if config.access = AccessLevel.hidden then none
    else some (mkAIEnvVariable key config (lookupAssoc env key))

/-- Result of the modification gate. -/
structure ValidationResult where
  allowed : Bool
  reason : Option String
deriving DecidableEq, Repr

/-- Modelled from the spec: the human-readable denial reason, naming the
actual access level (`src/core/index.ts` is missing). -/
def denialReason : AccessLevel → String
  | .full => ""
  | .readOnly => "Variable has read-only access and cannot be modified"
  | .placeholder => "Variable has placeholder access and cannot be modified"
  | .schemaOnly => "Variable has schema-only access and cannot be modified"
  | .hidden => "Variable is hidden from AI and cannot be modified"

/-- Modelled from the spec: `validateModification(key, manifest)` permits a
write exactly when the resolved access is `full`; otherwise it denies with
a reason naming the actual level (`src/core/index.ts` is missing). -/
def validateModification (key : String) (manifest : Manifest) : ValidationResult :=
  let config := getVariableConfig manifest key
  if config.access = AccessLevel.full then { allowed := true, reason := none }
  else { allowed := false, reason := some (denialReason config.access) }

/-! ## Claim C7: manifest lookup with default fallback -/

/-- Claim C7: for every manifest and key, `getVariableConfig` returns the
stored `VariableConfig` when the key is present, and otherwise the fixed
default `{access: placeholder, description: "Unclassified variable"}`; it is
total, so it never returns `undefined`. -/
theorem C7_getVariableConfig (manifest : Manifest) (key : String) :
    (∀ c, lookupAssoc manifest.vars key = some c → getVariableConfig manifest key = c) ∧
    (lookupAssoc manifest.vars key = none → getVariableConfig manifest key = DEFAULT_CONFIG) ∧
    DEFAULT_CONFIG =
      { access := AccessLevel.placeholder, description := some "Unclassified variable" } := by
  refine ⟨fun c hc => ?_, fun hn => ?_, rfl⟩
  · simp [getVariableConfig, hc]
  · simp [getVariableConfig, hn]

/-- Witness for C7 at concrete inputs: a stored key resolves to its config
and a missing key to the default. -/
theorem C7_getVariableConfig_witness :
    getVariableConfig { version := 1, vars := [("DEBUG", { access := AccessLevel.full })] }
        "DEBUG" = { access := AccessLevel.full } ∧
    getVariableConfig createEmptyManifest "MISSING" = DEFAULT_CONFIG :=
  ⟨(C7_getVariableConfig { version := 1, vars := [("DEBUG", { access := AccessLevel.full })] }
      "DEBUG").1 { access := AccessLevel.full } (by decide),
   (C7_getVariableConfig createEmptyManifest "MISSING").2.1 (by decide)⟩

/-! ## Claim C9: manifest update is a pure single-key frame change -/

/-- Claim C9: `setVariableConfig(manifest, key, config)` yields a manifest in
which the one key maps to `config` while the version and every other key's
entry are unchanged; the update is a pure copy (spread), so the input
manifest value itself is untouched. -/
theorem C9_setVariableConfig (manifest : Manifest) (key : String) (config : VariableConfig) :
    (setVariableConfig manifest key config).version = manifest.version ∧
    lookupAssoc (setVariableConfig manifest key config).vars key = some config ∧
    ∀ k', k' ≠ key →
      lookupAssoc (setVariableConfig manifest key config).vars k' =
        lookupAssoc manifest.vars k' := by
  refine ⟨rfl, ?_, fun k' hk' => ?_⟩
  · exact lookupAssoc_updateAssoc_self manifest.vars key config
  · exact lookupAssoc_updateAssoc_ne manifest.vars key k' config hk'

/-- Witness for C9 at a concrete manifest: the updated key changes, the
other key and the version do not. -/
theorem C9_setVariableConfig_witness :
    lookupAssoc (setVariableConfig
      { version := 1, vars := [("A", { access := AccessLevel.full }),
                               ("B", { access := AccessLevel.hidden })] }
      "A" { access := AccessLevel.readOnly }).vars "B" =
      lookupAssoc [("A", ({ access := AccessLevel.full } : VariableConfig)),
                   ("B", { access := AccessLevel.hidden })] "B" :=
  (C9_setVariableConfig
    { version := 1, vars := [("A", { access := AccessLevel.full }),
                             ("B", { access := AccessLevel.hidden })] }
    "A" { access := AccessLevel.readOnly }).2.2 "B" (by decide)

/-! ## Claim C2: hidden keys never escape the projection -/

/-- Claim C2: for every raw environment and manifest, a key whose resolved
access level is `hidden` never appears in `filterForAI` output, and
`getVariableForAI` returns none (not an error) both for a hidden key and
for a key absent from both the manifest and the raw environment.
(The projection engine is modelled from the spec; its module is not in the
repository snapshot.) -/
theorem C2_hidden_projection (env : List (String × String)) (manifest : Manifest)
    (key : String) :
    ((getVariableConfig manifest key).access = AccessLevel.hidden →
      (∀ v ∈ filterForAI env manifest, v.key ≠ key) ∧
      getVariableForAI key env manifest = none) ∧
    (lookupAssoc manifest.vars key = none → lookupAssoc env key = none →
      getVariableForAI key env manifest = none) := by
  constructor
  · intro hhid
    constructor
    · intro v hv
      simp only [filterForAI, List.mem_filterMap] at hv
      obtain ⟨k', _, hf⟩ := hv
      by_cases hc : (getVariableConfig manifest k').access = AccessLevel.hidden
      · simp [hc] at hf
      · simp only [hc, if_false, Option.some.injEq, reduceIte] at hf
        intro hkey
        apply hc
        rw [← hf] at hkey
        simp [mkAIEnvVariable] at hkey
        rw [hkey] at hc ⊢
        exact hhid
    · unfold getVariableForAI
      by_cases habs :
          ((lookupAssoc manifest.vars key).isNone && (lookupAssoc env key).isNone) = true
      · simp [habs]
      · simp [habs, hhid]
  · intro hm he
    unfold getVariableForAI
    simp [hm, he]

/-- Witness for C2 at concrete inputs: a hidden key yields no projection
record, and an unknown key yields none. -/
theorem C2_hidden_projection_witness :
    getVariableForAI "STRIPE_SECRET" [("STRIPE_SECRET", "whsec_x")]
      { version := 1, vars := [("STRIPE_SECRET", { access := AccessLevel.hidden })] } = none ∧
    getVariableForAI "NO_SUCH_KEY" [] createEmptyManifest = none :=
  ⟨((C2_hidden_projection [("STRIPE_SECRET", "whsec_x")]
      { version := 1, vars := [("STRIPE_SECRET", { access := AccessLevel.hidden })] }
      "STRIPE_SECRET").1 (by decide)).2,
   (C2_hidden_projection [] createEmptyManifest "NO_SUCH_KEY").2 (by decide) (by decide)⟩

/-! ## Claim C3: the modification gate permits exactly `full` -/

/-- Claim C3: `validateModification(key, manifest)` allows a write exactly
when the resolved config's access is `full`; for each of the other four
levels it denies with a non-empty reason that names the actual access
level.  (The gate is modelled from the spec; its module is not in the
repository snapshot.) -/
theorem C3_validateModification (key : String) (manifest : Manifest) :
    ((validateModification key manifest).allowed = true ↔
      (getVariableConfig manifest key).access = AccessLevel.full) ∧
    (∀ a, (getVariableConfig manifest key).access = a → a ≠ AccessLevel.full →
      validateModification key manifest = { allowed := false, reason := some (denialReason a) } ∧
      denialReason a ≠ "" ∧
      ∃ pre post, denialReason a = pre ++ accessTag a ++ post) := by
  constructor
  · by_cases h : (getVariableConfig manifest key).access = AccessLevel.full
    · simp [validateModification, h]
    · simp [validateModification, h]
  · intro a ha hne
    refine ⟨?_, ?_, ?_⟩
    · unfold validateModification
      simp only []
      rw [ha]
      simp [hne]
    · cases a with
      | full => exact absurd rfl hne
      | readOnly => decide
      | placeholder => decide
      | schemaOnly => decide
      | hidden => decide
    · cases a with
      | full => exact absurd rfl hne
      | readOnly =>
          exact ⟨"Variable has ", " access and cannot be modified", by decide⟩
      | placeholder =>
          exact ⟨"Variable has ", " access and cannot be modified", by decide⟩
      | schemaOnly =>
          exact ⟨"Variable has ", " access and cannot be modified", by decide⟩
      | hidden =>
          exact ⟨"Variable is ", " from AI and cannot be modified", by decide⟩

/-- Witness for C3 at a concrete manifest: a read-only key is denied with
the read-only reason. -/
theorem C3_validateModification_witness :
    validateModification "DB_HOST"
      { version := 1, vars := [("DB_HOST", { access := AccessLevel.readOnly })] } =
      { allowed := false, reason := some (denialReason AccessLevel.readOnly) } :=
  ((C3_validateModification "DB_HOST"
      { version := 1, vars := [("DB_HOST", { access := AccessLevel.readOnly })] }).2
    AccessLevel.readOnly (by decide) (by decide)).1

/-! ## Claim C4: hidden-tier classifier rules win over placeholder-tier rules -/

/-- A name matches one of the three hidden-tier classification rules
(`stripe-secret`, `private-key`, `signing-secret`). -/
def hiddenTierMatch (name : String) : Bool :=
  startsWithSeq (upChars name) "STRIPE_SECRET".toList ||
    optSepSub "PRIVATE" "KEY" (upChars name) ||
    optSepSub "SIGNING" "SECRET" (upChars name)

/-- A name matches one of the ten placeholder-tier classification rules
(`api-key` through `token`). -/
def placeholderTierMatch (name : String) : Bool :=
  optSepSub "API" "KEY" (upChars name) ||
    optSepSub "SECRET" "KEY" (upChars name) ||
    optSepSub "ACCESS" "KEY" (upChars name) ||
    optSepSub "AUTH" "TOKEN" (upChars name) ||
    optSepSub "BEARER" "TOKEN" (upChars name) ||
    optSepSub "JWT" "SECRET" (upChars name) ||
    hasSub (upChars name) "PASSWORD".toList ||
    hasSub (upChars name) "CREDENTIAL".toList ||
    hasSub (upChars name) "SECRET".toList ||
    endsWithSeq (upChars name) "TOKEN".toList

/-- Claim C4: every name matching both a hidden-tier rule and a
placeholder-tier rule (such as a `STRIPE_SECRET`-prefixed name, which also
matches the generic `SECRET` rule) classifies to the hidden-tier rule's
access level, because rules are evaluated in list order with
first-match-wins. -/
theorem C4_hidden_tier_priority (name : String)
    (hh : hiddenTierMatch name = true)
    (hp : placeholderTierMatch name = true) :
    accessOf (classifyVariable name) = some AccessLevel.hidden := by
  clear hp
  unfold hiddenTierMatch at hh
  simp only [Bool.or_eq_true] at hh
  by_cases h1 : startsWithSeq (upChars name) "STRIPE_SECRET".toList = true
  · have h1' : startsWithSeq (upChars name)
        ['S', 'T', 'R', 'I', 'P', 'E', '_', 'S', 'E', 'C', 'R', 'E', 'T'] = true := h1
    simp [classifyVariable, CLASSIFICATION_PATTERNS, List.find?, h1', accessOf]
  · by_cases h2 : optSepSub "PRIVATE" "KEY" (upChars name) = true
    · simp only [classifyVariable, CLASSIFICATION_PATTERNS, List.find?, h2, accessOf]
      cases hb : startsWithSeq (upChars name)
          ['S', 'T', 'R', 'I', 'P', 'E', '_', 'S', 'E', 'C', 'R', 'E', 'T'] <;> simp [hb]
    · have h3 : optSepSub "SIGNING" "SECRET" (upChars name) = true := by
        rcases hh with (hh | hh) | hh
        · exact absurd hh h1
        · exact absurd hh h2
        · exact hh
      have h2' : optSepSub "PRIVATE" "KEY" (upChars name) = false :=
        Bool.not_eq_true _ ▸ eq_false_of_ne_true h2
      simp only [classifyVariable, CLASSIFICATION_PATTERNS, List.find?, h2', h3, accessOf]
      cases hb : startsWithSeq (upChars name)
          ['S', 'T', 'R', 'I', 'P', 'E', '_', 'S', 'E', 'C', 'R', 'E', 'T'] <;> simp [hb]

/-- Witness for C4 at the concrete name `STRIPE_SECRET`, which matches both
the hidden-tier `stripe-secret` rule and the placeholder-tier `secret`
rule. -/
theorem C4_hidden_tier_priority_witness :
    accessOf (classifyVariable "STRIPE_SECRET") = some AccessLevel.hidden :=
  C4_hidden_tier_priority "STRIPE_SECRET" (by decide) (by decide)

/-! ## Claim C5: unmatched names default to the placeholder config -/

theorem lookupAssoc_classifyVariables_fold (names : List String) (acc : List (String × VariableConfig))
    (name : String)
    (h : lookupAssoc acc name = some ((classifyVariable name).getD getDefaultConfig) ∨
         name ∈ names) :
    lookupAssoc
      (names.foldl
        (fun result n => updateAssoc result n ((classifyVariable n).getD getDefaultConfig)) acc)
      name = some ((classifyVariable name).getD getDefaultConfig) := by
  induction names generalizing acc with
  | nil =>
    rcases h with h | h
    · simpa using h
    · simp at h
  | cons n ns ih =>
    simp only [List.foldl_cons]
    apply ih
    rcases h with h | h
    · left
      by_cases hn : name = n
      · subst hn
        exact lookupAssoc_updateAssoc_self acc name _
      · rw [lookupAssoc_updateAssoc_ne acc n name _ hn]
        exact h
    · rcases List.mem_cons.mp h with h | h
      · subst h
        left
        exact lookupAssoc_updateAssoc_self acc name _
      · right
        exact h

/-- Claim C5: every name that matches no classification rule is assigned the
fixed default config by `classifyVariables`, whose access level is
`placeholder` — never `full` and never `hidden`. -/
theorem C5_default_safety (names : List String) (name : String)
    (hmem : name ∈ names) (hnone : classifyVariable name = none) :
    lookupAssoc (classifyVariables names) name = some getDefaultConfig ∧
    getDefaultConfig.access = AccessLevel.placeholder ∧
    getDefaultConfig.access ≠ AccessLevel.full ∧
    getDefaultConfig.access ≠ AccessLevel.hidden := by
  refine ⟨?_, rfl, by decide, by decide⟩
  have := lookupAssoc_classifyVariables_fold names [] name (Or.inr hmem)
  rw [hnone] at this
  exact this

/-- Witness for C5 at the concrete name `CUSTOM_VAR`, which matches no
rule. -/
theorem C5_default_safety_witness :
    lookupAssoc (classifyVariables ["CUSTOM_VAR"]) "CUSTOM_VAR" = some getDefaultConfig :=
  (C5_default_safety ["CUSTOM_VAR"] "CUSTOM_VAR" (by decide) (by decide)).1

/-! ## Claim C6: structural manifest errors and `loadManifest` -/

/-- A manifest document whose `API_KEY` entry carries an invalid access
level. -/
def badAccessDoc : Yaml :=
  .ymap [("variables", .ymap [("API_KEY", .ymap [("access", .ystr "superuser")])])]

/-- Counterexample to claim C6 as stated: `parseManifest` reports the
descriptive invalid-access-level error (naming the key and enumerating the
five levels), but `loadManifest` catches it and replaces it with a generic
`Manifest not found` error, so the structural error does not survive a
file-based load. -/
theorem C6_counterexample :
    parseManifestDoc badAccessDoc = .error (invalidAccessMsg "API_KEY" "superuser") ∧
    invalidAccessMsg "API_KEY" "superuser" =
      "Invalid manifest: variable \"API_KEY\" has invalid access level \"superuser\". " ++
        "Valid levels: full, read-only, placeholder, schema-only, hidden" ∧
    loadManifestFrom "." (some badAccessDoc) =
      .error "Manifest not found: ./.env.manifest.yaml" ∧
    "Manifest not found: ./.env.manifest.yaml" ≠
      invalidAccessMsg "API_KEY" "superuser" :=
  ⟨rfl, by decide, rfl, by decide⟩

/-- Claim C6 (amended): every structural error in manifest parsing is
surfaced by `parseManifest` with its descriptive message naming the
offending key or field — an invalid access level yields a message naming
the key and enumerating the five valid levels — and `parseManifest` itself
never recovers or replaces such an error; `loadManifest`, however, catches
any parse error and replaces it with a generic `Manifest not found: <path>`
error. -/
theorem C6_structural_errors (doc v : Yaml) (key s dir e : String) (q : Rat)
    (pre post : List (String × Yaml)) :
    ((yamlTruthy doc && yamlIsObject doc) = false →
      parseManifestDoc doc = .error "Invalid manifest: expected object") ∧
    ((yamlTruthy v && yamlIsObject v) = false →
      parseVariableEntry key v = .error (mustBeObjectMsg key)) ∧
    (yamlProp v "access" = some (.ystr s) → levelOfTag s = none →
      (yamlTruthy v && yamlIsObject v) = true →
      parseVariableEntry key v = .error (invalidAccessMsg key s)) ∧
    (invalidAccessMsg key s =
      "Invalid manifest: variable \"" ++ key ++ "\" has invalid access level \"" ++ s ++
        "\". " ++ "Valid levels: " ++ "full, read-only, placeholder, schema-only, hidden") ∧
    ((∀ p ∈ pre, (parseVariableEntry p.1 p.2).isOk = true) →
      parseVariableEntry key v = .error e →
      parseEntries (pre ++ (key, v) :: post) = .error e) ∧
    ((yamlTruthy doc && yamlIsObject doc) = true → parseVersion doc = .ok q →
      parseEntries (variablesEntries doc) = .error e →
      parseManifestDoc doc = .error e) ∧
    (parseManifestDoc doc = .error e →
      loadManifestFrom dir (some doc) =
        .error ("Manifest not found: " ++ (dir ++ "/" ++ MANIFEST_FILENAME))) := by
  refine ⟨?_, ?_, ?_, ?_, ?_, ?_, ?_⟩
  · intro h
    simp [parseManifestDoc, h]
  · intro h
    simp [parseVariableEntry, h]
  · intro hacc hlvl htr
    simp [parseVariableEntry, htr, hacc, hlvl]
  · have henum : String.intercalate ", " ACCESS_LEVELS =
        "full, read-only, placeholder, schema-only, hidden" := by decide
    simp [invalidAccessMsg, henum]
  · intro hok herr
    induction pre with
    | nil => simp [parseEntries, herr]
    | cons p rest ih =>
      have hpok : (parseVariableEntry p.1 p.2).isOk = true := hok p (by simp)
      match hpe : parseVariableEntry p.1 p.2 with
      | .error e' => rw [hpe] at hpok; simp [Except.isOk, Except.toBool] at hpok
      | .ok val =>
        have ih' := ih (fun p hp => hok p (by simp [hp]))
        simp [parseEntries, hpe, ih', Except.map]
  · intro htr hver hent
    simp [parseManifestDoc, htr, hver, hent, Except.map]
  · intro herr
    simp [loadManifestFrom, herr]

/-- Witness for C6 at concrete inputs: an invalid access level produces the
descriptive entry error, and a failing parse is replaced by `loadManifest`. -/
theorem C6_structural_errors_witness :
    parseVariableEntry "FOO" (Yaml.ymap [("access", Yaml.ystr "admin")]) =
      .error (invalidAccessMsg "FOO" "admin") ∧
    loadManifestFrom "/app" (some (Yaml.ystr "oops")) =
      .error ("Manifest not found: " ++ ("/app" ++ "/" ++ MANIFEST_FILENAME)) :=
  ⟨(C6_structural_errors (Yaml.ystr "oops") (Yaml.ymap [("access", Yaml.ystr "admin")])
      "FOO" "admin" "/app" "Invalid manifest: expected object" 1 [] []).2.2.1
      rfl (by decide) rfl,
   (C6_structural_errors (Yaml.ystr "oops") (Yaml.ymap [("access", Yaml.ystr "admin")])
      "FOO" "admin" "/app" "Invalid manifest: expected object" 1 [] []).2.2.2.2.2.2
      (by exact rfl)⟩

/-! ## Claim C8: version defaulting and validation -/

/-- A manifest document with the fractional version `3/2`. -/
def versionFractionalDoc : Yaml :=
  .ymap [("version", .ynum (mkRat 3 2)), ("variables", .ymap [])]

/-- Counterexample to claim C8 as stated: a version that is a number but not
a positive integer (here `1.5`) is accepted, not rejected — the code only
checks `typeof version === "number" && version >= 1`. -/
theorem C8_counterexample :
    parseManifestDoc versionFractionalDoc = .ok { version := mkRat 3 2, vars := [] } ∧
    (mkRat 3 2).den ≠ 1 ∧ 1 ≤ mkRat 3 2 :=
  ⟨rfl, by decide, by decide⟩

/-- Claim C8 (amended): when the `version` field is absent or null the
result has version 1; when it is present with a non-null value that is not
a number, or a number less than 1, parsing fails with the structural
version error; any number at least 1 — integer or not — is accepted
verbatim as the version of the parsed manifest. -/
theorem C8_version_defaulting (doc y : Yaml) (q : Rat) (man : Manifest) :
    (yamlProp doc "version" = none → parseVersion doc = .ok 1) ∧
    (yamlProp doc "version" = some .ynull → parseVersion doc = .ok 1) ∧
    (yamlProp doc "version" = some (.ynum q) → q < 1 →
      parseVersion doc = .error versionErrorMsg) ∧
    (yamlProp doc "version" = some (.ynum q) → 1 ≤ q → parseVersion doc = .ok q) ∧
    (yamlProp doc "version" = some y → (∀ q', y ≠ .ynum q') → y ≠ .ynull →
      parseVersion doc = .error versionErrorMsg) ∧
    (parseManifestDoc doc = .ok man → parseVersion doc = .ok man.version) := by
  refine ⟨?_, ?_, ?_, ?_, ?_, ?_⟩
  · intro h
    simp [parseVersion, h]
  · intro h
    simp [parseVersion, h]
  · intro h hlt
    simp [parseVersion, h, hlt]
  · intro h hge
    simp [parseVersion, h, not_lt_of_ge hge]
  · intro h hnum hnull
    cases y with
    | ynull => exact absurd rfl hnull
    | ynum q' => exact absurd rfl (hnum q')
    | ybool b => simp [parseVersion, h]
    | ystr s' => simp [parseVersion, h]
    | yarr items => simp [parseVersion, h]
    | ymap entries => simp [parseVersion, h]
  · intro h
    by_cases htr : (yamlTruthy doc && yamlIsObject doc) = true
    · unfold parseManifestDoc at h
      rw [htr] at h
      simp only [Bool.not_true, Bool.false_eq_true, if_false, reduceIte] at h
      match hv : parseVersion doc with
      | .error e => rw [hv] at h; simp at h
      | .ok ver =>
        rw [hv] at h
        match he : parseEntries (variablesEntries doc) with
        | .error e => rw [he] at h; simp [Except.map] at h
        | .ok vs =>
          rw [he] at h
          simp only [Except.map, Except.ok.injEq] at h
          rw [← h]
    · unfold parseManifestDoc at h
      rw [eq_false_of_ne_true htr] at h
      simp at h

/-- Witness for C8 at concrete documents: a missing version defaults to 1,
a zero version is rejected, and the fractional version of a successfully
parsed document is reported back. -/
theorem C8_version_defaulting_witness :
    parseVersion (Yaml.ymap []) = .ok 1 ∧
    parseVersion (Yaml.ymap [("version", Yaml.ynum 0)]) = .error versionErrorMsg ∧
    parseVersion versionFractionalDoc = .ok (mkRat 3 2) :=
  ⟨(C8_version_defaulting (Yaml.ymap []) Yaml.ynull 1 createEmptyManifest).1 rfl,
   (C8_version_defaulting (Yaml.ymap [("version", Yaml.ynum 0)]) Yaml.ynull 0
      createEmptyManifest).2.2.1 rfl (by decide),
   (C8_version_defaulting versionFractionalDoc Yaml.ynull (mkRat 3 2)
      { version := mkRat 3 2, vars := [] }).2.2.2.2.2 rfl⟩

/-! ## Claim C10: `updateEnvVariable` writes the value verbatim -/

theorem replaceKeyLine_mem (key value : List Char) (lines ls : List (List Char))
    (h : replaceKeyLine key value lines = some ls) :
    updFormatLine key value ∈ ls := by
  induction lines generalizing ls with
  | nil => simp [replaceKeyLine] at h
  | cons l rest ih =>
    by_cases hm : matchesKeyLine key l = true
    · simp only [replaceKeyLine, hm, if_true, Option.some.injEq, reduceIte] at h
      rw [← h]
      exact List.mem_cons_self _ _
    · simp only [replaceKeyLine, hm, if_false, Bool.false_eq_true, reduceIte,
        Option.map_eq_some'] at h
      obtain ⟨ls', hls', rfl⟩ := h
      exact List.mem_cons_of_mem _ (ih ls' hls')

theorem updFormatLine_mem_updateEnvLines (key value : List Char)
    (lines : List (List Char)) :
    updFormatLine key value ∈ updateEnvLines key value lines := by
  unfold updateEnvLines
  match hr : replaceKeyLine key value lines with
  | some ls => exact replaceKeyLine_mem key value lines ls hr
  | none =>
    match hl : lines.getLast? with
    | some last =>
      by_cases hne : last ≠ []
      · simp [hne]
      · simp [hne]
    | none => simp

theorem escOne_len2 (a b₁ b₂ : Char) (l : List Char) :
    (escOne a [b₁, b₂] l).length = l.length + l.count a := by
  induction l with
  | nil => simp [escOne]
  | cons c rest ih =>
    by_cases hc : c = a
    · subst hc
      simp [escOne, List.count_cons, ih]
      omega
    · simp [escOne, hc, List.count_cons, ih, Ne.symm hc]
      omega

theorem escOne_count_ne (x a b₁ b₂ : Char) (hxa : x ≠ a) (hx1 : x ≠ b₁) (hx2 : x ≠ b₂)
    (l : List Char) :
    (escOne a [b₁, b₂] l).count x = l.count x := by
  induction l with
  | nil => simp [escOne]
  | cons c rest ih =>
    by_cases hc : c = a
    · subst hc
      simp [escOne, List.count_cons, ih, Ne.symm hx1, Ne.symm hx2, hxa]
    · simp [escOne, hc, List.count_cons, ih]

theorem escapeValue_length (v : List Char) :
    (escapeValue v).length =
      v.length + v.count '\\' + v.count '"' + v.count '\n' + v.count '\r' + v.count '\t' := by
  unfold escapeValue
  rw [escOne_len2, escOne_len2, escOne_len2, escOne_len2, escOne_len2]
  rw [escOne_count_ne '"' '\\' '\\' '\\' (by decide) (by decide) (by decide)]
  rw [escOne_count_ne '\n' '"' '\\' '"' (by decide) (by decide) (by decide)]
  rw [escOne_count_ne '\n' '\\' '\\' '\\' (by decide) (by decide) (by decide)]
  rw [escOne_count_ne '\r' '\n' '\\' 'n' (by decide) (by decide) (by decide)]
  rw [escOne_count_ne '\r' '"' '\\' '"' (by decide) (by decide) (by decide)]
  rw [escOne_count_ne '\r' '\\' '\\' '\\' (by decide) (by decide) (by decide)]
  rw [escOne_count_ne '\t' '\r' '\\' 'r' (by decide) (by decide) (by decide)]
  rw [escOne_count_ne '\t' '\n' '\\' 'n' (by decide) (by decide) (by decide)]
  rw [escOne_count_ne '\t' '"' '\\' '"' (by decide) (by decide) (by decide)]
  rw [escOne_count_ne '\t' '\\' '\\' '\\' (by decide) (by decide) (by decide)]

theorem count_pos_of_contains (c : Char) (l : List Char) (h : l.contains c = true) :
    0 < l.count c :=
  List.count_pos_iff.mpr (List.mem_of_elem_eq_true h)

/-- Claim C10: `updateEnvVariable` writes the replaced or appended line as
`KEY="value"` with the value inserted verbatim and unescaped exactly when
the value contains a space, `#`, or newline, and as `KEY=value` otherwise;
unlike `serializeEnv`, it never escapes backslashes, double quotes,
carriage returns, or tabs in the written value, so for a quoted value
containing any of those characters the two codecs write different lines. -/
theorem C10_updateEnvVariable_verbatim (key value : List Char) (lines : List (List Char)) :
    updFormatLine key value ∈ updateEnvLines key value lines ∧
    ((value.contains ' ' || value.contains '#' || value.contains '\n') = true →
      updFormatLine key value = key ++ '=' :: '"' :: (value ++ ['"'])) ∧
    ((value.contains ' ' || value.contains '#' || value.contains '\n') = false →
      updFormatLine key value = key ++ '=' :: value) ∧
    (value.contains ' ' = true →
      (value.contains '\\' || value.contains '"' ||
        value.contains '\r' || value.contains '\t') = true →
      updFormatLine key value ≠ serLine key value) := by
  refine ⟨updFormatLine_mem_updateEnvLines key value lines, ?_, ?_, ?_⟩
  · intro h
    have hq : updNeedsQuotes value = true := h
    simp [updFormatLine, hq]
  · intro h
    have hq : updNeedsQuotes value = false := h
    simp [updFormatLine, hq]
  · intro hsp hesc
    have hq1 : updNeedsQuotes value = true := by
      unfold updNeedsQuotes
      rw [hsp]
      simp
    have hq2 : needsQuotes value = true := by
      unfold needsQuotes
      rw [hsp]
      simp
    intro heq
    have hlen := congrArg List.length heq
    simp only [updFormatLine, serLine, hq1, hq2, if_true, List.length_append,
      List.length_cons, List.length_singleton] at hlen
    have hesc' : 0 < value.count '\\' + value.count '"' +
        value.count '\r' + value.count '\t' := by
      simp only [Bool.or_eq_true] at hesc
      rcases hesc with ((h | h) | h) | h
      · have := count_pos_of_contains _ _ h
        omega
      · have := count_pos_of_contains _ _ h
        omega
      · have := count_pos_of_contains _ _ h
        omega
      · have := count_pos_of_contains _ _ h
        omega
    have hev := escapeValue_length value
    omega

/-- Witness for C10 at a concrete key and value containing a space and a
backslash: `updateEnvVariable` and `serializeEnv` write different lines. -/
theorem C10_updateEnvVariable_verbatim_witness :
    updFormatLine "K".toList "a \\b".toList ≠ serLine "K".toList "a \\b".toList :=
  (C10_updateEnvVariable_verbatim "K".toList "a \\b".toList []).2.2.2
    (by decide) (by decide)

/-! ## Claim C1: the key-value codec round-trip -/

/-- Counterexample to claim C1 as stated: the two-character value
backslash-`n` contains no quoting trigger, so it is serialized unquoted as
`KEY=\n`, and the parser then expands the apparent escape sequence into a
real newline: the round-trip returns a different mapping. -/
theorem C1_counterexample :
    parseEnvContent (serializeEnv [("KEY".toList, ['\\', 'n'])]) ≠
      [("KEY".toList, ['\\', 'n'])] ∧
    parseEnvContent (serializeEnv [("KEY".toList, ['\\', 'n'])]) =
      [("KEY".toList, ['\n'])] := by
  constructor
  · decide
  · decide

/-- Keys for which the round-trip holds: non-empty, free of `=` and
newlines, not starting with `#`, and with no surrounding whitespace (the
parser trims them away). -/
def goodEnvKey (k : List Char) : Bool :=
  !k.isEmpty && k.all (fun c => !(c = '=') && !(c = '\n')) &&
    (match k.head? with
     | some c => !isWs c && !(c = '#')
     | none => false) &&
    (match k.getLast? with
     | some c => !isWs c
     | none => false)

/-- Values for which the round-trip holds: free of backslashes (the parser
expands escape sequences even in unquoted values and undoes them in the
wrong order in quoted ones) and of whitespace other than space and newline
(tabs, carriage returns and the like do not trigger quoting, and the
parser trims them away). -/
def goodEnvValue (v : List Char) : Bool :=
  v.all (fun c => !(c = '\\') && (!isWs c || c = ' ' || c = '\n'))

theorem goodEnvKey_spec (k : List Char) (h : goodEnvKey k = true) :
    k ≠ [] ∧ (∀ c ∈ k, c ≠ '=' ∧ c ≠ '\n') ∧
    (∀ c, k.head? = some c → isWs c = false ∧ c ≠ '#') ∧
    (∀ c, k.getLast? = some c → isWs c = false) := by
  unfold goodEnvKey at h
  simp only [Bool.and_eq_true, List.all_eq_true, Bool.not_eq_true', Bool.not_eq_eq_eq_not,
    decide_eq_false_iff_not] at h
  obtain ⟨⟨⟨h1, h2⟩, h3⟩, h4⟩ := h
  refine ⟨?_, ?_, ?_, ?_⟩
  · intro e
    subst e
    simp at h1
  · intro c hc
    have := h2 c hc
    constructor
    · intro e
      rw [e] at this
      simp at this
    · intro e
      rw [e] at this
      simp at this
  · intro c hc
    rw [hc] at h3
    simp only [Bool.and_eq_true, Bool.not_eq_true'] at h3
    refine ⟨h3.1, ?_⟩
    intro e
    rw [e] at h3
    simp at h3
  · intro c hc
    rw [hc] at h4
    simp only [Bool.not_eq_true'] at h4
    exact h4

theorem goodEnvValue_spec (v : List Char) (h : goodEnvValue v = true) :
    ∀ c ∈ v, c ≠ '\\' ∧ (isWs c = true → c = ' ' ∨ c = '\n') := by
  unfold goodEnvValue at h
  simp only [List.all_eq_true, Bool.and_eq_true, Bool.or_eq_true, Bool.not_eq_true',
    decide_eq_true_eq] at h
  intro c hc
  obtain ⟨h1, h2⟩ := h c hc
  constructor
  · intro e
    rw [e] at h1
    simp at h1
  · intro hws
    rcases h2 with (hf | hsp) | hnl
    · rw [hws] at hf
      exact absurd hf (by simp)
    · exact Or.inl hsp
    · exact Or.inr hnl

theorem not_mem_of_contains_false (c : Char) (l : List Char) (h : l.contains c = false) :
    c ∉ l := by
  intro hm
  have he : l.elem c = true := List.elem_eq_true_of_mem hm
  rw [show l.contains c = l.elem c from rfl, he] at h
  simp at h

theorem dropWhile_eq_self_of_head (l : List Char)
    (h : ∀ c, l.head? = some c → isWs c = false) :
    l.dropWhile isWs = l := by
  cases l with
  | nil => rfl
  | cons c rest => simp [List.dropWhile_cons, h c rfl]

theorem trimChars_eq_self (l : List Char)
    (h1 : ∀ c, l.head? = some c → isWs c = false)
    (h2 : ∀ c, l.getLast? = some c → isWs c = false) :
    trimChars l = l := by
  unfold trimChars
  rw [dropWhile_eq_self_of_head l h1]
  rw [dropWhile_eq_self_of_head l.reverse
    (fun c hc => h2 c (by rwa [List.head?_reverse l] at hc))]
  exact List.reverse_reverse l

theorem splitNL_no_nl (l : List Char) (h : '\n' ∉ l) : splitNL l = [l] := by
  induction l with
  | nil => rfl
  | cons c rest ih =>
    have hc : ¬(c = '\n') := fun e => h (e ▸ List.mem_cons_self c rest)
    have hr : '\n' ∉ rest := fun m => h (List.mem_cons_of_mem _ m)
    simp [splitNL, hc, ih hr]

theorem splitNL_append_nl (l rest : List Char) (h : '\n' ∉ l) :
    splitNL (l ++ '\n' :: rest) = l :: splitNL rest := by
  induction l with
  | nil => simp [splitNL]
  | cons c t ih =>
    have hc : ¬(c = '\n') := fun e => h (e ▸ List.mem_cons_self c t)
    have ht : '\n' ∉ t := fun m => h (List.mem_cons_of_mem _ m)
    simp [splitNL, hc, ih ht]

theorem splitAtFirst_append (sep : Char) (k r : List Char) (h : sep ∉ k) :
    splitAtFirst sep (k ++ sep :: r) = some (k, r) := by
  induction k with
  | nil => simp [splitAtFirst]
  | cons c t ih =>
    have hc : ¬(c = sep) := fun e => h (e ▸ List.mem_cons_self c t)
    have ht : sep ∉ t := fun m => h (List.mem_cons_of_mem _ m)
    simp [splitAtFirst, hc, ih ht]

theorem splitAtFirst_none (sep : Char) (l : List Char) (h : sep ∉ l) :
    splitAtFirst sep l = none := by
  induction l with
  | nil => rfl
  | cons c t ih =>
    have hc : ¬(c = sep) := fun e => h (e ▸ List.mem_cons_self c t)
    have ht : sep ∉ t := fun m => h (List.mem_cons_of_mem _ m)
    simp [splitAtFirst, hc, ih ht]

theorem escOne_eq_self (a : Char) (bs l : List Char) (h : a ∉ l) : escOne a bs l = l := by
  induction l with
  | nil => rfl
  | cons c t ih =>
    have hc : ¬(c = a) := fun e => h (e ▸ List.mem_cons_self c t)
    have ht : a ∉ t := fun m => h (List.mem_cons_of_mem _ m)
    simp [escOne, hc, ih ht]

theorem not_mem_escOne (x a : Char) (bs l : List Char) (hxl : x ∉ l) (hxbs : x ∉ bs) :
    x ∉ escOne a bs l := by
  induction l with
  | nil => simp [escOne]
  | cons c t ih =>
    have hxc : ¬(x = c) := fun e => hxl (e ▸ List.mem_cons_self c t)
    have hxt : x ∉ t := fun m => hxl (List.mem_cons_of_mem _ m)
    intro hm
    unfold escOne at hm
    rcases List.mem_append.mp hm with hm | hm
    · by_cases hca : c = a
      · rw [if_pos hca] at hm
        exact hxbs hm
      · rw [if_neg hca] at hm
        exact hxc (List.mem_singleton.mp hm)
    · exact ih hxt hm

theorem not_mem_escOne_self (a : Char) (bs l : List Char) (ha : a ∉ bs) :
    a ∉ escOne a bs l := by
  induction l with
  | nil => simp [escOne]
  | cons c t ih =>
    intro hm
    unfold escOne at hm
    rcases List.mem_append.mp hm with hm | hm
    · by_cases hca : c = a
      · rw [if_pos hca] at hm
        exact ha hm
      · rw [if_neg hca] at hm
        exact hca (List.mem_singleton.mp hm).symm
    · exact ih hm

theorem escapeValue_no_nl (v : List Char) : '\n' ∉ escapeValue v := by
  unfold escapeValue
  apply not_mem_escOne
  · apply not_mem_escOne
    · exact not_mem_escOne_self '\n' ['\\', 'n'] _ (by decide)
    · decide
  · decide

/-- The combined effect of the quote and newline escape passes on a value
with no backslash, carriage return, or tab: each character becomes its
escape block. -/
def escBlocks : List Char → List Char
  | [] => []
  | c :: rest =>
    (if c = '"' then ['\\', '"'] else if c = '\n' then ['\\', 'n'] else [c]) ++ escBlocks rest

theorem escOne_append (a : Char) (bs x y : List Char) :
    escOne a bs (x ++ y) = escOne a bs x ++ escOne a bs y := by
  induction x with
  | nil => rfl
  | cons c t ih => simp [escOne, ih]

theorem escNQ_eq_escBlocks (v : List Char) :
    escOne '\n' ['\\', 'n'] (escOne '"' ['\\', '"'] v) = escBlocks v := by
  induction v with
  | nil => rfl
  | cons c rest ih =>
    by_cases hq : c = '"'
    · subst hq
      simp [escOne, escBlocks, escOne_append, ih]
    · by_cases hn : c = '\n'
      · subst hn
        simp [escOne, escBlocks, escOne_append, ih]
      · simp [escOne, escBlocks, escOne_append, ih, hq, hn]

theorem escapeValue_eq_escBlocks (v : List Char)
    (hb : '\\' ∉ v) (hr : '\r' ∉ v) (ht : '\t' ∉ v) :
    escapeValue v = escBlocks v := by
  unfold escapeValue
  rw [escOne_eq_self '\\' _ v hb]
  rw [escOne_eq_self '\r' _ _
    (not_mem_escOne '\r' '\n' _ _ (not_mem_escOne '\r' '"' _ _ hr (by decide)) (by decide))]
  rw [escOne_eq_self '\t' _ _
    (not_mem_escOne '\t' '\n' _ _ (not_mem_escOne '\t' '"' _ _ ht (by decide)) (by decide))]
  exact escNQ_eq_escBlocks v

theorem unPair_cons_ne (a b r x : Char) (l : List Char) (hx : x ≠ a) :
    unPair a b r (x :: l) = x :: unPair a b r l := by
  cases l with
  | nil => simp [unPair]
  | cons y rest => simp [unPair, hx]

/-- The intermediate shape after the `\n` expansion pass: newlines restored,
quotes still escaped. -/
def escBlocks2 : List Char → List Char
  | [] => []
  | c :: rest => (if c = '"' then ['\\', '"'] else [c]) ++ escBlocks2 rest

theorem unN_escBlocks (v : List Char) (hv : ∀ c ∈ v, c ≠ '\\') :
    unPair '\\' 'n' '\n' (escBlocks v) = escBlocks2 v := by
  induction v with
  | nil => rfl
  | cons c rest ih =>
    have hc : c ≠ '\\' := (hv c (List.mem_cons_self c rest))
    have hrest : ∀ c ∈ rest, c ≠ '\\' := fun c hm => hv c (List.mem_cons_of_mem _ hm)
    by_cases hq : c = '"'
    · subst hq
      show unPair '\\' 'n' '\n' ('\\' :: '"' :: escBlocks rest) = _
      rw [show unPair '\\' 'n' '\n' ('\\' :: '"' :: escBlocks rest) =
        '\\' :: unPair '\\' 'n' '\n' ('"' :: escBlocks rest) from by simp [unPair]]
      rw [unPair_cons_ne _ _ _ _ _ (by decide)]
      rw [ih hrest]
      rfl
    · by_cases hn : c = '\n'
      · subst hn
        show unPair '\\' 'n' '\n' ('\\' :: 'n' :: escBlocks rest) = _
        rw [show unPair '\\' 'n' '\n' ('\\' :: 'n' :: escBlocks rest) =
          '\n' :: unPair '\\' 'n' '\n' (escBlocks rest) from by simp [unPair]]
        rw [ih hrest]
        simp [escBlocks2]
      · show unPair '\\' 'n' '\n' ((if c = '"' then _ else if c = '\n' then _ else [c]) ++
          escBlocks rest) = _
        rw [if_neg hq, if_neg hn]
        rw [List.singleton_append, unPair_cons_ne _ _ _ _ _ hc, ih hrest]
        simp [escBlocks2, hq]

theorem unPair_escBlocks2_id (b r' : Char) (hb : ('"' : Char) ≠ b) (v : List Char)
    (hv : ∀ c ∈ v, c ≠ '\\') :
    unPair '\\' b r' (escBlocks2 v) = escBlocks2 v := by
  induction v with
  | nil => rfl
  | cons c rest ih =>
    have hc : c ≠ '\\' := (hv c (List.mem_cons_self c rest))
    have hrest : ∀ c ∈ rest, c ≠ '\\' := fun c hm => hv c (List.mem_cons_of_mem _ hm)
    by_cases hq : c = '"'
    · subst hq
      show unPair '\\' b r' ('\\' :: '"' :: escBlocks2 rest) = _
      rw [show unPair '\\' b r' ('\\' :: '"' :: escBlocks2 rest) =
        '\\' :: unPair '\\' b r' ('"' :: escBlocks2 rest) from by simp [unPair, hb]]
      rw [unPair_cons_ne _ _ _ _ _ (by decide), ih hrest]
      rfl
    · show unPair '\\' b r' ((if c = '"' then _ else [c]) ++ escBlocks2 rest) = _
      rw [if_neg hq, List.singleton_append, unPair_cons_ne _ _ _ _ _ hc, ih hrest]
      simp [escBlocks2, hq]

theorem unQ_escBlocks2 (v : List Char) (hv : ∀ c ∈ v, c ≠ '\\') :
    unPair '\\' '"' '"' (escBlocks2 v) = v := by
  induction v with
  | nil => rfl
  | cons c rest ih =>
    have hc : c ≠ '\\' := (hv c (List.mem_cons_self c rest))
    have hrest : ∀ c ∈ rest, c ≠ '\\' := fun c hm => hv c (List.mem_cons_of_mem _ hm)
    by_cases hq : c = '"'
    · subst hq
      show unPair '\\' '"' '"' ('\\' :: '"' :: escBlocks2 rest) = _
      rw [show unPair '\\' '"' '"' ('\\' :: '"' :: escBlocks2 rest) =
        '"' :: unPair '\\' '"' '"' (escBlocks2 rest) from by simp [unPair]]
      rw [ih hrest]
    · show unPair '\\' '"' '"' ((if c = '"' then _ else [c]) ++ escBlocks2 rest) = _
      rw [if_neg hq, List.singleton_append, unPair_cons_ne _ _ _ _ _ hc, ih hrest]

theorem unescape_escBlocks (v : List Char) (hv : ∀ c ∈ v, c ≠ '\\') :
    unescapeValue (escBlocks v) = v := by
  unfold unescapeValue
  rw [unN_escBlocks v hv,
    unPair_escBlocks2_id 'r' '\r' (by decide) v hv,
    unPair_escBlocks2_id 't' '\t' (by decide) v hv,
    unPair_escBlocks2_id '\\' '\\' (by decide) v hv,
    unQ_escBlocks2 v hv]

theorem escBlocks_eq_self_of_no_backslash (v : List Char) (h : '\\' ∉ escBlocks v) :
    escBlocks v = v := by
  induction v with
  | nil => rfl
  | cons c rest ih =>
    by_cases hq : c = '"'
    · exfalso
      apply h
      subst hq
      show '\\' ∈ ('\\' :: '"' :: escBlocks rest)
      exact List.mem_cons_self _ _
    · by_cases hn : c = '\n'
      · exfalso
        apply h
        subst hn
        show '\\' ∈ ('\\' :: 'n' :: escBlocks rest)
        exact List.mem_cons_self _ _
      · have h' : '\\' ∉ escBlocks rest := by
          intro m
          apply h
          show '\\' ∈ (if c = '"' then _ else if c = '\n' then _ else [c]) ++ escBlocks rest
          rw [if_neg hq, if_neg hn]
          exact List.mem_cons_of_mem _ m
        show (if c = '"' then _ else if c = '\n' then _ else [c]) ++ escBlocks rest = c :: rest
        rw [if_neg hq, if_neg hn, List.singleton_append, ih h']

theorem serLine_no_nl (k v : List Char) (hk : '\n' ∉ k) : '\n' ∉ serLine k v := by
  unfold serLine
  by_cases hq : needsQuotes v = true
  · rw [if_pos hq]
    intro hm
    rcases List.mem_append.mp hm with hm | hm
    · exact hk hm
    · rcases List.mem_cons.mp hm with hm | hm
      · exact absurd hm (by decide)
      · rcases List.mem_cons.mp hm with hm | hm
        · exact absurd hm (by decide)
        · rcases List.mem_append.mp hm with hm | hm
          · exact escapeValue_no_nl v hm
          · exact absurd (List.mem_singleton.mp hm) (by decide)
  · rw [if_neg hq]
    have hfalse : needsQuotes v = false := by
      cases h : needsQuotes v
      · rfl
      · exact absurd h hq
    unfold needsQuotes at hfalse
    simp only [Bool.or_eq_false_iff] at hfalse
    have hnl : v.contains '\n' = false := hfalse.1.1.2
    intro hm
    rcases List.mem_append.mp hm with hm | hm
    · exact hk hm
    · rcases List.mem_cons.mp hm with hm | hm
      · exact absurd hm (by decide)
      · exact not_mem_of_contains_false '\n' v hnl hm

theorem head?_append_ne_nil (k y : List Char) (h : k ≠ []) : (k ++ y).head? = k.head? := by
  cases k with
  | nil => exact absurd rfl h
  | cons c t => rfl

theorem mem_of_head?_eq_some (l : List Char) (a : Char) (h : l.head? = some a) : a ∈ l := by
  cases l with
  | nil => simp at h
  | cons c t =>
    injection h with h
    rw [← h]
    exact List.mem_cons_self c t

theorem mem_of_getLast?_eq_some (l : List Char) (a : Char) (h : l.getLast? = some a) :
    a ∈ l := by
  have hx : a ∈ l.getLast? := by rw [h]; rfl
  obtain ⟨hne, he⟩ := List.mem_getLast?_eq_getLast hx
  rw [he]
  exact List.getLast_mem hne

theorem getLast?_cons_ne_none (c : Char) (y : List Char) : (c :: y).getLast? ≠ none := by
  induction y generalizing c with
  | nil => simp
  | cons d t ih =>
    rw [List.getLast?_cons_cons]
    exact ih d

theorem getLast?_append_cons (k : List Char) (c : Char) (y : List Char) :
    (k ++ c :: y).getLast? = (c :: y).getLast? := by
  rw [List.getLast?_append]
  cases hl : (c :: y).getLast? with
  | none => exact absurd hl (getLast?_cons_ne_none c y)
  | some d => rfl

theorem contains_eq_false_of_not_mem (c : Char) (l : List Char) (h : c ∉ l) :
    l.contains c = false := by
  cases hc : l.contains c with
  | false => rfl
  | true => exact absurd (List.mem_of_elem_eq_true hc) h

/-- One serialized line parses back to exactly its key-value pair. -/
theorem parseLine_serLine (k v : List Char) (hk : goodEnvKey k = true)
    (hv : goodEnvValue v = true) :
    parseLine (serLine k v) = some (k, v) := by
  obtain ⟨hkne, hkchars, hkhead, hklast⟩ := goodEnvKey_spec k hk
  have hvchars := goodEnvValue_spec v hv
  have hkeq : '=' ∉ k := fun m => (hkchars _ m).1 rfl
  have hvbs : '\\' ∉ v := fun m => (hvchars _ m).1 rfl
  have hvtab : '\t' ∉ v := fun m => by
    rcases (hvchars _ m).2 (by decide) with h | h <;> exact absurd h (by decide)
  have hvcr : '\r' ∉ v := fun m => by
    rcases (hvchars _ m).2 (by decide) with h | h <;> exact absurd h (by decide)
  have htrimk : trimChars k = k :=
    trimChars_eq_self k (fun c hc => (hkhead c hc).1) hklast
  obtain ⟨c0, hc0⟩ : ∃ c0, k.head? = some c0 := by
    cases k with
    | nil => exact absurd rfl hkne
    | cons c t => exact ⟨c, rfl⟩
  have hc0ws : isWs c0 = false := (hkhead c0 hc0).1
  have hc0hash : c0 ≠ '#' := (hkhead c0 hc0).2
  by_cases hq : needsQuotes v = true
  · -- Quoted case: the line is  k = " escaped "  and unescaping restores v.
    have hserl : serLine k v = k ++ '=' :: ('"' :: (escBlocks v ++ ['"'])) := by
      unfold serLine
      rw [if_pos hq, escapeValue_eq_escBlocks v hvbs hvcr hvtab]
    have hwlast : ('"' :: (escBlocks v ++ ['"'])).getLast? = some '"' := by
      rw [show ('"' :: (escBlocks v ++ ['"'])) = ('"' :: escBlocks v) ++ ['"'] from by simp]
      exact List.getLast?_concat _
    have hlinelast :
        (k ++ '=' :: ('"' :: (escBlocks v ++ ['"']))).getLast? = some '"' := by
      rw [getLast?_append_cons]
      rw [show ('=' :: ('"' :: (escBlocks v ++ ['"']))) =
        ['='] ++ ('"' :: (escBlocks v ++ ['"'])) from rfl]
      rw [List.getLast?_append, hwlast]
      rfl
    have htrimline :
        trimChars (k ++ '=' :: ('"' :: (escBlocks v ++ ['"']))) =
          k ++ '=' :: ('"' :: (escBlocks v ++ ['"'])) := by
      apply trimChars_eq_self
      · intro c hc
        rw [head?_append_ne_nil k _ hkne, hc0] at hc
        injection hc with hcc
        rw [← hcc]
        exact hc0ws
      · intro c hc
        rw [hlinelast] at hc
        injection hc with hcc
        rw [← hcc]
        decide
    have hempty : (k ++ '=' :: ('"' :: (escBlocks v ++ ['"']))).isEmpty = false := by
      cases k with
      | nil => exact absurd rfl hkne
      | cons c t => rfl
    have hhash : ¬((k ++ '=' :: ('"' :: (escBlocks v ++ ['"']))).head? = some '#') := by
      rw [head?_append_ne_nil k _ hkne, hc0]
      intro hcontra
      injection hcontra with hcc
      exact hc0hash hcc
    have htrimw : trimChars ('"' :: (escBlocks v ++ ['"'])) =
        '"' :: (escBlocks v ++ ['"']) := by
      apply trimChars_eq_self
      · intro c hc
        injection hc with hcc
        rw [← hcc]
        decide
      · intro c hc
        rw [hwlast] at hc
        injection hc with hcc
        rw [← hcc]
        decide
    have hdrop : ((('"' :: (escBlocks v ++ ['"'])).drop 1).dropLast) = escBlocks v := by
      rw [show ('"' :: (escBlocks v ++ ['"'])).drop 1 = escBlocks v ++ ['"'] from rfl]
      exact List.dropLast_concat
    have hval3 :
        (if (escBlocks v).contains '\\' = true then unescapeValue (escBlocks v)
          else escBlocks v) = v := by
      by_cases hbs : (escBlocks v).contains '\\' = true
      · rw [if_pos hbs]
        exact unescape_escBlocks v (fun c hc e => hvbs (e ▸ hc))
      · rw [if_neg hbs]
        apply escBlocks_eq_self_of_no_backslash
        intro m
        exact hbs (List.elem_eq_true_of_mem m)
    have hkempty : k.isEmpty = false := by
      cases k with
      | nil => exact absurd rfl hkne
      | cons c t => rfl
    rw [hserl]
    unfold parseLine
    simp only [htrimline, hempty, Bool.false_eq_true, if_false,
      splitAtFirst_append '=' k _ hkeq, htrimk, htrimw, hkempty, reduceIte]
    rw [if_neg hhash]
    have hcond1 : (('"' :: (escBlocks v ++ ['"'])).head? = some '"' ∨
        ('"' :: (escBlocks v ++ ['"'])).head? = some '\'') := Or.inl rfl
    rw [if_pos hcond1]
    have hcond2 : ((('"' :: (escBlocks v ++ ['"'])).head? = some '"' ∧
        ('"' :: (escBlocks v ++ ['"'])).getLast? = some '"') ∨
        (('"' :: (escBlocks v ++ ['"'])).head? = some '\'' ∧
          ('"' :: (escBlocks v ++ ['"'])).getLast? = some '\'')) := Or.inl ⟨rfl, hwlast⟩
    rw [if_pos hcond2]
    rw [hdrop]
    rw [hval3]
  · -- Unquoted case: the line is  k = v  with no whitespace or special
    -- character in v at all.
    have hserl : serLine k v = k ++ '=' :: v := by
      unfold serLine
      rw [if_neg hq]
    have hfalse : needsQuotes v = false := by
      cases h : needsQuotes v
      · rfl
      · exact absurd h hq
    unfold needsQuotes at hfalse
    simp only [Bool.or_eq_false_iff] at hfalse
    obtain ⟨⟨⟨⟨hcsp, hchash⟩, hcnl⟩, hcdq⟩, hcsq⟩ := hfalse
    have hvsp : ' ' ∉ v := not_mem_of_contains_false _ _ hcsp
    have hvhash : '#' ∉ v := not_mem_of_contains_false _ _ hchash
    have hvnl : '\n' ∉ v := not_mem_of_contains_false _ _ hcnl
    have hvdq : '"' ∉ v := not_mem_of_contains_false _ _ hcdq
    have hvsq : '\'' ∉ v := not_mem_of_contains_false _ _ hcsq
    have hvws : ∀ c ∈ v, isWs c = false := by
      intro c hc
      cases hw : isWs c with
      | false => rfl
      | true =>
        rcases (hvchars c hc).2 hw with e | e
        · exact absurd (e ▸ hc) hvsp
        · exact absurd (e ▸ hc) hvnl
    have htrimv : trimChars v = v :=
      trimChars_eq_self v
        (fun c hc => hvws c (mem_of_head?_eq_some v c hc))
        (fun c hc => hvws c (mem_of_getLast?_eq_some v c hc))
    have hlinelast : ∀ c, (k ++ '=' :: v).getLast? = some c → isWs c = false := by
      intro c hc
      rw [getLast?_append_cons] at hc
      cases v with
      | nil =>
        injection hc with hcc
        rw [← hcc]
        decide
      | cons d t =>
        rw [show ('=' :: (d :: t)) = ['='] ++ (d :: t) from rfl,
          List.getLast?_append] at hc
        cases hl : (d :: t).getLast? with
        | none => exact absurd hl (getLast?_cons_ne_none d t)
        | some e =>
          rw [hl] at hc
          injection hc with hcc
          rw [← hcc]
          exact hvws e (mem_of_getLast?_eq_some (d :: t) e hl)
    have htrimline : trimChars (k ++ '=' :: v) = k ++ '=' :: v := by
      apply trimChars_eq_self
      · intro c hc
        rw [head?_append_ne_nil k _ hkne, hc0] at hc
        injection hc with hcc
        rw [← hcc]
        exact hc0ws
      · exact hlinelast
    have hempty : (k ++ '=' :: v).isEmpty = false := by
      cases k with
      | nil => exact absurd rfl hkne
      | cons c t => rfl
    have hhash : ¬((k ++ '=' :: v).head? = some '#') := by
      rw [head?_append_ne_nil k _ hkne, hc0]
      intro hcontra
      injection hcontra with hcc
      exact hc0hash hcc
    have hnotq : ¬(v.head? = some '"' ∨ v.head? = some '\'') := by
      rintro (h | h)
      · exact hvdq (mem_of_head?_eq_some v _ h)
      · exact hvsq (mem_of_head?_eq_some v _ h)
    have hnotq2 : ¬((v.head? = some '"' ∧ v.getLast? = some '"') ∨
        (v.head? = some '\'' ∧ v.getLast? = some '\'')) := by
      rintro (⟨h, _⟩ | ⟨h, _⟩)
      · exact hvdq (mem_of_head?_eq_some v _ h)
      · exact hvsq (mem_of_head?_eq_some v _ h)
    have hnobs : v.contains '\\' = false := contains_eq_false_of_not_mem _ _ hvbs
    have hkempty : k.isEmpty = false := by
      cases k with
      | nil => exact absurd rfl hkne
      | cons c t => rfl
    rw [hserl]
    unfold parseLine
    simp only [htrimline, hempty, Bool.false_eq_true, if_false,
      splitAtFirst_append '=' k _ hkeq, htrimk, htrimv, hkempty, reduceIte]
    rw [if_neg hhash]
    rw [if_neg hnotq, splitAtFirst_none '#' v hvhash]
    rw [if_neg hnotq2]
    rw [hnobs]
    simp

theorem splitNL_joinNL (ls : List (List Char)) (hne : ls ≠ [])
    (h : ∀ l ∈ ls, '\n' ∉ l) :
    splitNL (joinNL ls ++ ['\n']) = ls ++ [[]] := by
  induction ls with
  | nil => exact absurd rfl hne
  | cons l rest ih =>
    cases rest with
    | nil =>
      show splitNL (l ++ '\n' :: []) = [l, []]
      rw [splitNL_append_nl l [] (h l (List.mem_cons_self l []))]
      rfl
    | cons l' rest' =>
      have hjoin : joinNL (l :: l' :: rest') ++ ['\n'] =
          l ++ '\n' :: (joinNL (l' :: rest') ++ ['\n']) := by
        show (l ++ '\n' :: joinNL (l' :: rest')) ++ ['\n'] = _
        simp
      rw [hjoin, splitNL_append_nl l _ (h l (List.mem_cons_self l _))]
      rw [ih (by simp) (fun x hx => h x (List.mem_cons_of_mem _ hx))]
      rfl

theorem parse_foldl_serialized (m : List (List Char × List Char))
    (acc : List (List Char × List Char))
    (hnd : (m.map Prod.fst).Nodup)
    (hk : ∀ p ∈ m, goodEnvKey p.1 = true)
    (hv : ∀ p ∈ m, goodEnvValue p.2 = true)
    (hdisj : ∀ p ∈ m, ∀ q ∈ acc, q.1 ≠ p.1) :
    List.foldl
      (fun result line =>
        match parseLine line with
        | some (k, v) => updateAssoc result k v
        | none => result)
      acc ((m.map (fun p => serLine p.1 p.2)) ++ [[]]) = acc ++ m := by
  induction m generalizing acc with
  | nil =>
    show (match parseLine [] with
      | some (k, v) => updateAssoc acc k v
      | none => acc) = acc ++ []
    rw [show parseLine [] = none from rfl]
    simp
  | cons p m' ih =>
    have hp : parseLine (serLine p.1 p.2) = some (p.1, p.2) :=
      parseLine_serLine p.1 p.2 (hk p (List.mem_cons_self p m'))
        (hv p (List.mem_cons_self p m'))
    have hstep :
        (match parseLine (serLine p.1 p.2) with
          | some (k, v) => updateAssoc acc k v
          | none => acc) = acc ++ [p] := by
      rw [hp]
      show updateAssoc acc p.1 p.2 = acc ++ [p]
      rw [updateAssoc_eq_append acc p.1 p.2
        (fun q hq => hdisj p (List.mem_cons_self p m') q hq)]
    have hnd' : (m'.map Prod.fst).Nodup := (List.nodup_cons.mp hnd).2
    have hhead : p.1 ∉ m'.map Prod.fst := (List.nodup_cons.mp hnd).1
    have hdisj' : ∀ p' ∈ m', ∀ q ∈ acc ++ [p], q.1 ≠ p'.1 := by
      intro p' hp' q hq
      rcases List.mem_append.mp hq with hq | hq
      · exact hdisj p' (List.mem_cons_of_mem _ hp') q hq
      · rw [List.mem_singleton.mp hq]
        intro e
        exact hhead (e ▸ List.mem_map_of_mem Prod.fst hp')
    show List.foldl _ _
        (serLine p.1 p.2 :: ((m'.map (fun p => serLine p.1 p.2)) ++ [[]])) = _
    rw [List.foldl_cons, hstep]
    rw [ih (acc ++ [p]) hnd'
      (fun q hq => hk q (List.mem_cons_of_mem _ hq))
      (fun q hq => hv q (List.mem_cons_of_mem _ hq)) hdisj']
    simp

/-- Claim C1 (amended): the key-value round-trip
`parseEnvContent(serializeEnv(m)) = m` holds for every mapping whose keys
are non-empty, contain no `=` or newline, do not start with `#`, and carry
no surrounding whitespace, and whose values contain no backslash and no
whitespace other than space and newline.  (Backslash-bearing values break
the round-trip — see the counterexample — because the parser expands
escape sequences in unquoted values and undoes quoted escapes in the wrong
order; tabs and carriage returns do not trigger quoting and are trimmed
away.) -/
theorem C1_roundtrip_amended (m : List (List Char × List Char))
    (hnd : (m.map Prod.fst).Nodup)
    (hk : ∀ p ∈ m, goodEnvKey p.1 = true)
    (hv : ∀ p ∈ m, goodEnvValue p.2 = true) :
    parseEnvContent (serializeEnv m) = m := by
  cases m with
  | nil => decide
  | cons p m' =>
    have hlines : ∀ l ∈ (p :: m').map (fun q => serLine q.1 q.2), '\n' ∉ l := by
      intro l hl
      obtain ⟨q, hq, rfl⟩ := List.mem_map.mp hl
      have hknl : '\n' ∉ q.1 := by
        obtain ⟨_, hchars, _, _⟩ := goodEnvKey_spec q.1 (hk q hq)
        exact fun mm => (hchars _ mm).2 rfl
      exact serLine_no_nl q.1 q.2 hknl
    have hsplit : splitNL (serializeEnv (p :: m')) =
        ((p :: m').map (fun q => serLine q.1 q.2)) ++ [[]] := by
      unfold serializeEnv
      exact splitNL_joinNL _ (by simp) hlines
    unfold parseEnvContent
    rw [hsplit]
    have := parse_foldl_serialized (p :: m') [] hnd hk hv (by simp)
    rw [this]
    rfl

/-- Witness for C1 (amended) at a concrete two-entry mapping whose values
exercise spaces, quotes, newlines, and `#`. -/
theorem C1_roundtrip_amended_witness :
    parseEnvContent (serializeEnv
      [("GREETING".toList, "hello world # \"quoted\"".toList),
       ("MULTI".toList, "line1\nline2".toList)]) =
      [("GREETING".toList, "hello world # \"quoted\"".toList),
       ("MULTI".toList, "line1\nline2".toList)] :=
  C1_roundtrip_amended
    [("GREETING".toList, "hello world # \"quoted\"".toList),
     ("MULTI".toList, "line1\nline2".toList)]
    (by decide) (by decide) (by decide)

end EnvibeMCP
